import Mathlib

/-!
Verification development for the Boulder ACME web front end
(`wfe/web-front-end.go`).

Shallow embedding conventions:
* Go strings used as opaque data (paths, serial renderings) are modelled as
  `List Char`; JSON bodies and nonces as `String`.
* External collaborators (the jose library, the storage layer `SA`, the
  registration authority `RA`) are modelled as function-valued fields of
  environment records, since their implementations live outside this
  repository; the front end's own control flow is translated line by line.
* The in-memory nonce service (`core.NonceService`, used via
  `nonceService.Nonce()` and `nonceService.Valid()`) is not part of this
  repository's sources; it is modelled from the spec (§4.1).
-/

namespace Wfe

/-- Abstract identity of a JSON web key (`jose.JsonWebKey`).  Only equality
of keys is observable to the front end. -/
structure JsonWebKey where
  thumb : Nat
deriving DecidableEq, Repr

/-- `core.Registration`: a subscriber account.  Fields beyond those the
front end reads are dropped. -/
structure Registration where
  ID : Int
  Key : JsonWebKey
  Agreement : String
  Contact : String
deriving DecidableEq, Repr

/-- The zero value `core.Registration{}` that `verifyPOST` substitutes when
account lookup fails and `regCheck` is false. -/
def Registration.empty : Registration := ⟨0, ⟨0⟩, "", ""⟩

/-- Protected header of a JWS signature: carries the signer's key and the
anti-replay nonce (`header.Nonce`, a string; the empty string means the
nonce is absent, matching `len(header.Nonce) == 0`). -/
structure JoseHeader where
  Nonce : String
  Key : JsonWebKey
deriving DecidableEq, Repr

/-- One signature of a parsed JWS (`parsedJws.Signatures[i]`). -/
structure JoseSignature where
  Header : JoseHeader
deriving DecidableEq, Repr

/-- A parsed JWS envelope (`jose.ParseSigned` result). -/
structure JWS where
  Signatures : List JoseSignature
deriving DecidableEq, Repr

/-- Errors of the storage layer's lookup calls.  `noRows` corresponds to
`sql.ErrNoRows`, which some handlers distinguish from other errors. -/
inductive SqlErr where
  | noRows
  | otherErr
deriving DecidableEq, Repr

/-- Modelled from the spec: the Nonce Registry (§4.1).  `core.NonceService`
is not under this repository's sources; per the spec it records outstanding
tokens, `issue` produces a fresh never-before-issued token, and `consume`
invalidates a currently valid token exactly once and has no side effect
otherwise.  Tokens are generated from a strictly increasing counter. -/
structure NonceService where
  outstanding : List String
  counter : Nat
deriving DecidableEq, Repr

/-- Token generation: an injective rendering of the issuance counter into
a nonempty opaque string. -/
def mkToken (n : Nat) : String := String.mk (List.replicate (n + 1) 'a')

/-- `nonceService.Nonce()`: issue a fresh token and record it as
outstanding-and-valid. -/
def NonceService.nonce (ns : NonceService) : String × NonceService :=
  (mkToken ns.counter, ⟨mkToken ns.counter :: ns.outstanding, ns.counter + 1⟩)

/-- `nonceService.Valid(token)`: consume.  Returns true and removes the
token if it is outstanding; returns false without side effect otherwise. -/
def NonceService.valid (ns : NonceService) (t : String) : Bool × NonceService :=
  if t ∈ ns.outstanding then (true, ⟨ns.outstanding.erase t, ns.counter⟩)
  else (false, ns)

/-- Well-formedness of a nonce service state: no duplicate outstanding
tokens, and every outstanding token was generated from an already-used
counter value. -/
def NonceService.wf (ns : NonceService) : Prop :=
  ns.outstanding.Nodup ∧ ∀ t ∈ ns.outstanding, ∃ k, k < ns.counter ∧ t = mkToken k

/-- Environment of `verifyPOST`: the jose library calls and the storage
lookup it makes, as abstract functions. -/
structure Env where
  parseSigned : String → Option JWS
  joseVerify : JWS → JsonWebKey → Option (String × JoseHeader)
  getRegistrationByKey : JsonWebKey → Except SqlErr Registration

/-- Failure cases of `verifyPOST`, one per `return ... err` site. -/
inductive VerifyError where
  | noBody
  | parseError
  | tooManySigs
  | unsigned
  | sigInvalid
  | noNonce
  | badNonce
  | regLookup (e : SqlErr)
deriving DecidableEq, Repr

/-- `wfe.verifyPOST(request, regCheck)`: read the body, parse as JWS,
reject multiple or zero signatures, verify the single signature against the
key embedded in its protected header, require and consume the anti-replay
nonce, then resolve the signer's account (hard failure when `regCheck`,
empty account otherwise).  Returns the result together with the nonce
service state after the call. -/
def verifyPOST (env : Env) (ns : NonceService) (body? : Option String)
    (regCheck : Bool) :
    Except VerifyError (String × JsonWebKey × Registration) × NonceService :=
  match body? with
  | none => (.error .noBody, ns)
  | some body =>
    match env.parseSigned body with
    | none => (.error .parseError, ns)
    | some parsedJws =>
      match parsedJws.Signatures with
      | [] => (.error .unsigned, ns)
      | _ :: _ :: _ => (.error .tooManySigs, ns)
      | [sig] =>
        let key := sig.Header.Key
        match env.joseVerify parsedJws key with
        | none => (.error .sigInvalid, ns)
        | some (payload, header) =>
          if header.Nonce.length = 0 then (.error .noNonce, ns)
          else
            match ns.valid header.Nonce with
            | (false, ns') => (.error .badNonce, ns')
            | (true, ns') =>
              match env.getRegistrationByKey key with
              | .ok reg => (.ok (payload, key, reg), ns')
              | .error e =>
                if regCheck then (.error (.regLookup e), ns')
                else (.ok (payload, key, Registration.empty), ns')

/-! ### Error mapping and problem documents -/

/-- The closed set of `core` error kinds switched on by
`statusCodeFromError`; `other` is the default case. -/
inductive CoreError where
  | malformedRequest
  | notSupported
  | syntaxError
  | unauthorized
  | notFound
  | signatureValidation
  | internalServer
  | other
deriving DecidableEq, Repr

/-- `statusCodeFromError`: map an error kind to an HTTP status code. -/
def statusCodeFromError : CoreError → Nat
  | .malformedRequest => 400
  | .notSupported => 501
  | .syntaxError => 400
  | .unauthorized => 403
  | .notFound => 404
  | .signatureValidation => 412
  | .internalServer => 500
  | .other => 500

/-- The defined problem types (`urn:acme:error:*`). -/
inductive ProblemType where
  | malformed
  | unauthorized
  | serverInternal
deriving DecidableEq, Repr

/-- A problem document body.  `type = none` models the zero-valued
`ProblemType` that the `omitempty` JSON tag drops from the output. -/
structure Problem where
  type : Option ProblemType
  detail : String
deriving DecidableEq, Repr

/-- The `switch code` of `sendError`: 403 maps to unauthorized; 409, 405,
404 and 400 fall through to malformed; 500 maps to server-internal; every
other status leaves the type unset. -/
def problemTypeForCode (code : Nat) : Option ProblemType :=
  if code = 403 then some .unauthorized
  else if code = 409 ∨ code = 405 ∨ code = 404 ∨ code = 400 then some .malformed
  else if code = 500 then some .serverInternal
  else none

/-- `wfe.sendError(response, details, debug, code)`: the problem document
written to the response (the status code itself is carried separately by
each handler model). -/
def sendError (details : String) (code : Nat) : Problem :=
  ⟨problemTypeForCode code, details⟩

/-! ### Path parsing -/

/-- `parseIDFromPath`: strip the greedy match of `^.*/`, i.e. keep the
characters after the last slash (the whole path when it has no slash). -/
def parseIDFromPath (path : List Char) : List Char :=
  ((path.reverse.takeWhile (fun c => c ≠ '/')).reverse)

/-- `strconv.ParseInt(s, 10, 64)`: optional sign, at least one decimal
digit, value within the signed 64-bit range; `none` on any violation. -/
def parseInt64 (s : List Char) : Option Int :=
  let (sign, digits) :=
    match s with
    | '-' :: rest => ((-1 : Int), rest)
    | '+' :: rest => ((1 : Int), rest)
    | _ => ((1 : Int), s)
  if digits = [] then none
  else if digits.all (fun c => c.isDigit) then
    let mag : Nat := digits.foldl (fun a c => a * 10 + (c.toNat - 48)) 0
    let v : Int := sign * mag
    if -(2 ^ 63) ≤ v ∧ v < 2 ^ 63 then some v else none
  else none

/-! ### The account-update handler (`wfe.Registration`) -/

/-- Environment of the account-update handler: JSON decoding of the update
payload and the `RA.UpdateRegistration` collaborator call. -/
structure RegEnv where
  env : Env
  subscriberAgreementURL : String
  unmarshalReg : String → Option Registration
  raUpdateRegistration : Registration → Registration → Except CoreError Registration

/-- Observable outcome of one account-update request: the HTTP status
written, the `(current, update)` pair handed to `RA.UpdateRegistration`
when that call was made, and the success body. -/
structure RegResult where
  status : Nat
  raCall : Option (Registration × Registration)
  body : Option Registration
deriving DecidableEq, Repr

/-- `wfe.Registration` (POST): issue standard headers, verify the body
requiring a known account, check that the trailing path segment is a
positive integer equal to the signer's account id, decode the update,
check the agreement URL, force the update's key to the account's current
key, and delegate to the authority. -/
def registrationHandler (e : RegEnv) (ns : NonceService) (path : List Char)
    (body? : Option String) : RegResult × NonceService :=
  let ns := (ns.nonce).2
  match verifyPOST e.env ns body? true with
  | (.error err, ns') =>
    (⟨if err = .regLookup .noRows then 403 else 400, none, none⟩, ns')
  | (.ok (payload, _key, currReg), ns') =>
    let idStr := parseIDFromPath path
    match parseInt64 idStr with
    | none => (⟨400, none, none⟩, ns')
    | some id =>
      if id ≤ 0 then (⟨400, none, none⟩, ns')
      else if id ≠ currReg.ID then (⟨403, none, none⟩, ns')
      else
        match e.unmarshalReg payload with
        | none => (⟨400, none, none⟩, ns')
        | some update =>
          if 0 < update.Agreement.length ∧
              update.Agreement ≠ e.subscriberAgreementURL then
            (⟨400, none, none⟩, ns')
          else
            let update' := { update with Key := currReg.Key }
            match e.raUpdateRegistration currReg update' with
            | .error err =>
              (⟨statusCodeFromError err, some (currReg, update'), none⟩, ns')
            | .ok updatedReg =>
              (⟨202, some (currReg, update'), some updatedReg⟩, ns')

/-! ### The challenge handler (`wfe.challenge`, POST branch) -/

/-- `core.AcmeURL` as the front end reads it: path and raw query. -/
structure AcmeURL where
  Path : List Char
  RawQuery : List Char
deriving DecidableEq, Repr

/-- `core.Challenge`: the fields the front end touches (`Typ` stands for
the Go field `Type`, a reserved word here). -/
structure Challenge where
  URI : AcmeURL
  Typ : String
  Status : String
deriving DecidableEq, Repr

/-- `core.Authorization`: the fields the front end touches. -/
structure Authorization where
  ID : String
  RegistrationID : Int
  Challenges : List Challenge
deriving DecidableEq, Repr

/-- The loop over `authz.Challenges` locating the challenge whose URI's
path and raw query match the incoming request; first match wins. -/
def findChallengeIndex (authz : Authorization) (path rawQuery : List Char) :
    Option Nat :=
  authz.Challenges.findIdx?
    (fun ch => ch.URI.Path = path ∧ ch.URI.RawQuery = rawQuery)

/-- Environment of the challenge handler. -/
structure ChalEnv where
  env : Env
  unmarshalChallenge : String → Option Challenge
  raUpdateAuthorization :
    Authorization → Nat → Challenge → Except CoreError Authorization

/-- Observable outcome of one challenge POST: status written, the
`(authz, challengeIndex, response)` triple handed to
`RA.UpdateAuthorization` when that call was made, and the challenge
serialized into the success body.  Status 0 marks the out-of-range index
access `updatedAuthz.Challenges[challengeIndex]`, which panics in Go. -/
structure ChalResult where
  status : Nat
  raCall : Option (Authorization × Nat × Challenge)
  body : Option Challenge
deriving DecidableEq, Repr

/-- `wfe.challenge` (POST): issue standard headers, locate the addressed
challenge by URI, verify requiring a known account, require prior
agreement acceptance, require the signer's account id to equal the
authorization's owning account id, decode the response, delegate to
`RA.UpdateAuthorization` with the located index, and reply with the
updated authorization's challenge at that same index. -/
def challengePOST (e : ChalEnv) (authz : Authorization) (ns : NonceService)
    (path rawQuery : List Char) (body? : Option String) :
    ChalResult × NonceService :=
  let ns := (ns.nonce).2
  match findChallengeIndex authz path rawQuery with
  | none => (⟨404, none, none⟩, ns)
  | some challengeIndex =>
    match verifyPOST e.env ns body? true with
    | (.error err, ns') =>
      (⟨if err = .regLookup .noRows then 403 else 400, none, none⟩, ns')
    | (.ok (payload, _key, currReg), ns') =>
      if currReg.Agreement = "" then (⟨403, none, none⟩, ns')
      else if currReg.ID ≠ authz.RegistrationID then (⟨403, none, none⟩, ns')
      else
        match e.unmarshalChallenge payload with
        | none => (⟨400, none, none⟩, ns')
        | some challengeResponse =>
          match e.raUpdateAuthorization authz challengeIndex challengeResponse with
          | .error err =>
            (⟨statusCodeFromError err,
              some (authz, challengeIndex, challengeResponse), none⟩, ns')
          | .ok updatedAuthz =>
            match updatedAuthz.Challenges[challengeIndex]? with
            | none =>
              (⟨0, some (authz, challengeIndex, challengeResponse), none⟩, ns')
            | some challenge =>
              (⟨202, some (authz, challengeIndex, challengeResponse),
                some challenge⟩, ns')

/-! ### The revocation handler (`wfe.RevokeCertificate`) -/

/-- The result of `x509.ParseCertificate` as the front end reads it: the
serial number and an abstract identity of the embedded public key. -/
structure ParsedCert where
  SerialNumber : Nat
  PublicKey : Nat
deriving DecidableEq, Repr

/-- `core.Certificate` as stored: DER bytes, owning account id, and the
serial it is indexed under. -/
structure StoredCert where
  Serial : Nat
  DER : List Nat
  RegistrationID : Int
deriving DecidableEq, Repr

/-- `core.CertificateStatus`: only the status string is read. -/
structure CertStatus where
  Status : String
deriving DecidableEq, Repr

/-- Environment of the revocation handler: payload decoding, X.509
parsing, `core.SerialToString`, the key-digest comparison, the storage
lookups and the `RA.RevokeCertificate` collaborator call. -/
structure RevokeEnv where
  env : Env
  unmarshalRevoke : String → Option (List Nat)
  parseCert : List Nat → Option ParsedCert
  serialToString : Nat → List Char
  keyDigestEquals : JsonWebKey → Nat → Bool
  getCertificate : List Char → Except SqlErr StoredCert
  getCertificateStatus : List Char → Except SqlErr CertStatus
  raRevoke : ParsedCert → Except CoreError Unit

/-- Observable outcome of one revocation request: status written and
whether `RA.RevokeCertificate` was called. -/
structure RevokeResult where
  status : Nat
  raCalled : Bool
deriving DecidableEq, Repr

/-- `wfe.RevokeCertificate` (POST): issue standard headers, verify the
body without requiring a known account, decode the revoke request, parse
the submitted DER, look the certificate up by its serial requiring
byte-for-byte DER equality, reparse the stored DER, require a
not-yet-revoked status, require the request key to match the
certificate's key or the signer's account id to match the certificate's
owning account id, then delegate to the authority. -/
def revokeCertificateHandler (e : RevokeEnv) (ns : NonceService)
    (body? : Option String) : RevokeResult × NonceService :=
  let ns := (ns.nonce).2
  match verifyPOST e.env ns body? false with
  | (.error _, ns') => (⟨400, false⟩, ns')
  | (.ok (payload, requestKey, registration), ns') =>
    match e.unmarshalRevoke payload with
    | none => (⟨400, false⟩, ns')
    | some certificateDER =>
      match e.parseCert certificateDER with
      | none => (⟨400, false⟩, ns')
      | some providedCert =>
        let serial := e.serialToString providedCert.SerialNumber
        match e.getCertificate serial with
        | .error _ => (⟨404, false⟩, ns')
        | .ok cert =>
          if cert.DER ≠ certificateDER then (⟨404, false⟩, ns')
          else
            match e.parseCert cert.DER with
            | none => (⟨500, false⟩, ns')
            | some parsedCertificate =>
              match e.getCertificateStatus serial with
              | .error _ => (⟨404, false⟩, ns')
              | .ok certStatus =>
                if certStatus.Status = "revoked" then (⟨409, false⟩, ns')
                else if ¬ (e.keyDigestEquals requestKey parsedCertificate.PublicKey ∨
                    registration.ID = cert.RegistrationID) then
                  (⟨403, false⟩, ns')
                else
                  match e.raRevoke parsedCertificate with
                  | .error err => (⟨statusCodeFromError err, true⟩, ns')
                  | .ok _ => (⟨200, true⟩, ns')

/-! ### Short serials and the certificate read handler -/

/-- One lowercase hex digit. -/
def hexChar (n : Nat) : Char :=
  if n < 10 then Char.ofNat (48 + n) else Char.ofNat (87 + n)

/-- Hex digits of `n`, most significant first, accumulated onto `acc`.
The first argument is fuel bounding the number of digits emitted; callers
pass at least the value itself, which always suffices. -/
def natToHexAux : Nat → Nat → List Char → List Char
  | 0, _, acc => acc
  | _, 0, acc => acc
  | fuel + 1, n + 1, acc =>
    natToHexAux fuel ((n + 1) / 16) (hexChar ((n + 1) % 16) :: acc)

/-- Lowercase hex rendering of `n` with no padding (`%x`). -/
def natToHex (n : Nat) : List Char :=
  if n = 0 then ['0'] else natToHexAux (n + 1) n []

/-- `fmt.Sprintf("%016x", serial.Rsh(serial, 64))` of `NewCertificate`:
drop the low 64 bits of the serial and render the remainder as hex padded
with zeros to width 16. -/
def shortSerial (serial : Nat) : List Char :=
  let h := natToHex (serial / 2 ^ 64)
  List.replicate (16 - h.length) '0' ++ h

/-- The `CertPath` prefix `/acme/cert/`. -/
def certPath : List Char := "/acme/cert/".data

/-- The regular expression `^[0-9a-f]+$` on one character. -/
def isLowerHexDigit (c : Char) : Bool :=
  ('0' ≤ c ∧ c ≤ '9') ∨ ('a' ≤ c ∧ c ≤ 'f')

/-- `allHex.Match`: every character is a lowercase hex digit and there is
at least one. -/
def allHex (s : List Char) : Bool :=
  s ≠ [] ∧ s.all isLowerHexDigit

/-- Modelled from the spec: outcomes of `SA.GetCertificateByShortSerial`
(§6), whose implementation is not under this repository's sources.  The
lookup must return the unique match, signal no match as not-found, and
signal the multiple-match case distinctly; the handler recognises the
latter by the `gorp: multiple rows returned` error-string prefix, which
the dedicated `multipleRows` constructor models. -/
inductive ShortSerialLookup where
  | found (c : StoredCert)
  | noRows
  | multipleRows
deriving DecidableEq, Repr

/-- Modelled from the spec: the short-serial lookup over a concrete
store. -/
def getCertificateByShortSerial (store : List StoredCert)
    (shortID : List Char) : ShortSerialLookup :=
  match store.filter (fun c => shortSerial c.Serial = shortID) with
  | [] => .noRows
  | [c] => .found c
  | _ :: _ :: _ => .multipleRows

/-- Observable outcome of a certificate GET. -/
inductive CertGetResult where
  | notFound
  | conflict
  | ok (c : StoredCert)
deriving DecidableEq, Repr

/-- `wfe.Certificate` (GET): the path must extend `CertPath` with exactly
sixteen lowercase hex digits; the short-serial lookup's multiple-match
error maps to Conflict, any other lookup error to NotFound, and a unique
match is returned. -/
def certificateGet (store : List StoredCert) (path : List Char) :
    CertGetResult :=
  if ¬ certPath.isPrefixOf path then .notFound
  else
    let serial := path.drop certPath.length
    if serial.length ≠ 16 ∨ ¬ allHex serial then .notFound
    else
      match getCertificateByShortSerial store serial with
      | .noRows => .notFound
      | .multipleRows => .conflict
      | .found c => .ok c

/-! ### The claimed success conditions of `verifyPOST` -/

/-- The three conditions of the signature-binding property: the body
parses as a signed envelope with exactly one signature, that signature
verifies against the key embedded in its protected header, and the
embedded nonce is present and currently valid in the registry. -/
def verifyConditions (env : Env) (ns : NonceService)
    (body? : Option String) : Prop :=
  ∃ body parsedJws sig payload header,
    body? = some body ∧
    env.parseSigned body = some parsedJws ∧
    parsedJws.Signatures = [sig] ∧
    env.joseVerify parsedJws sig.Header.Key = some (payload, header) ∧
    header.Nonce.length ≠ 0 ∧
    header.Nonce ∈ ns.outstanding

/-- The signature-verification step (steps up to and including
`parsedJws.Verify`) passed. -/
def signaturePassed (env : Env) (body? : Option String) : Prop :=
  ∃ body parsedJws sig payload header,
    body? = some body ∧
    env.parseSigned body = some parsedJws ∧
    parsedJws.Signatures = [sig] ∧
    env.joseVerify parsedJws sig.Header.Key = some (payload, header)

/-- The key embedded in the (unique) signature resolves to a stored
account. -/
def accountResolves (env : Env) (body? : Option String) : Prop :=
  ∀ body parsedJws sig,
    body? = some body → env.parseSigned body = some parsedJws →
    parsedJws.Signatures = [sig] →
    (env.getRegistrationByKey sig.Header.Key).isOk = true

/-! ### Registry operation traces -/

/-- One operation performed on the nonce registry by any caller. -/
inductive NonceOp where
  | issue
  | consume (t : String)

/-- Apply one registry operation. -/
def applyOp (ns : NonceService) : NonceOp → NonceService
  | .issue => (ns.nonce).2
  | .consume t => (ns.valid t).2

/-- Apply a sequence of registry operations. -/
def applyOps (ns : NonceService) (ops : List NonceOp) : NonceService :=
  ops.foldl applyOp ns

/-- A consumed token: no longer outstanding, and minted from a counter
value the registry has already passed (so it can never be re-issued). -/
def consumedToken (t : String) (ns : NonceService) : Prop :=
  t ∉ ns.outstanding ∧ ∃ k, k < ns.counter ∧ t = mkToken k

/-! ### Concrete fixtures for closed counterexamples and witnesses -/

/-- A concrete key. -/
def wKey : JsonWebKey := ⟨1⟩

/-- A concrete protected header carrying key `wKey` and nonce `"a"`
(which is `mkToken 0`). -/
def wHeader : JoseHeader := ⟨"a", wKey⟩

/-- A concrete signature. -/
def wSig : JoseSignature := ⟨wHeader⟩

/-- A concrete one-signature envelope. -/
def wJws : JWS := ⟨[wSig]⟩

/-- A concrete environment where every body parses to `wJws`, every
signature verifies, and no key resolves to an account. -/
def wEnvNoReg : Env :=
  ⟨fun _ => some wJws, fun _ _ => some ("payload", wHeader),
   fun _ => .error .noRows⟩

/-- A concrete nonce service with `"a"` outstanding. -/
def wNs : NonceService := ⟨["a"], 1⟩

/-- A concrete stored account bound to `wKey`. -/
def wReg : Registration := ⟨7, ⟨1⟩, "terms", "c"⟩

/-- A concrete environment resolving every key to `wReg`. -/
def wEnvReg : Env :=
  ⟨fun _ => some wJws, fun _ _ => some ("payload", wHeader),
   fun _ => .ok wReg⟩

/-- A concrete account-update environment whose payload decodes to an
update carrying a different key `⟨99⟩`. -/
def wRegEnv : RegEnv :=
  ⟨wEnvReg, "terms", fun _ => some ⟨0, ⟨99⟩, "", ""⟩, fun _ u => .ok u⟩

/-- A concrete challenge URI. -/
def wURL : AcmeURL := ⟨"/acme/authz/z".data, "c0".data⟩

/-- A concrete challenge addressed at `wURL`. -/
def wChal : Challenge := ⟨wURL, "dns", "pending"⟩

/-- A concrete authorization owned by account 7 with one challenge. -/
def wAuthz : Authorization := ⟨"z", 7, [wChal]⟩

/-- A concrete authorization owned by a different account (8). -/
def wAuthzOther : Authorization := ⟨"z", 8, [wChal]⟩

/-- A concrete challenge environment whose authority echoes the
authorization back unchanged. -/
def wChalEnv : ChalEnv := ⟨wEnvReg, fun _ => some wChal, fun a _ _ => .ok a⟩

/-- A concrete parsed certificate: serial 100, public key `1`. -/
def wParsed : ParsedCert := ⟨100, 1⟩

/-- A concrete stored certificate owned by account 7. -/
def wStoredCert : StoredCert := ⟨100, [1, 2, 3], 7⟩

/-- A concrete revocation environment over the account-resolving
verification environment. -/
def wRevokeEnv : RevokeEnv :=
  ⟨wEnvReg, fun _ => some [1, 2, 3], fun _ => some wParsed, natToHex,
   fun k pk => k.thumb == pk, fun _ => .ok wStoredCert,
   fun _ => .ok ⟨"good"⟩, fun _ => .ok ()⟩

/-- A concrete stored certificate owned by account id 0. -/
def wStoredCert0 : StoredCert := ⟨100, [1, 2, 3], 0⟩

/-- A concrete revocation environment whose verification environment
resolves no key to an account. -/
def wRevokeEnvNoReg : RevokeEnv :=
  ⟨wEnvNoReg, fun _ => some [1, 2, 3], fun _ => some wParsed, natToHex,
   fun k pk => k.thumb == pk, fun _ => .ok wStoredCert0,
   fun _ => .ok ⟨"good"⟩, fun _ => .ok ()⟩

/-! ## Theorems -/

/-! ### Helper lemmas on the nonce service -/

theorem valid_of_mem {ns : NonceService} {t : String}
    (h : t ∈ ns.outstanding) :
    ns.valid t = (true, ⟨ns.outstanding.erase t, ns.counter⟩) := by
  simp [NonceService.valid, h]

theorem valid_of_not_mem {ns : NonceService} {t : String}
    (h : t ∉ ns.outstanding) : ns.valid t = (false, ns) := by
  simp [NonceService.valid, h]

theorem mkToken_injective : Function.Injective mkToken := by
  intro a b h
  have : (mkToken a).length = (mkToken b).length := by rw [h]
  simpa [mkToken, String.length] using this

theorem verifyPOST_isOk_iff (env : Env) (ns : NonceService)
    (body? : Option String) (rc : Bool) :
    (verifyPOST env ns body? rc).1.isOk = true ↔
      verifyConditions env ns body? ∧
        (rc = true → accountResolves env body?) := by
  constructor
  · intro h
    cases body? with
    | none => simp [verifyPOST, Except.isOk, Except.toBool] at h
    | some body =>
    simp only [verifyPOST] at h
    cases hp : env.parseSigned body <;> rw [hp] at h <;>
      simp only [] at h
    case none => simp [Except.isOk, Except.toBool] at h
    case some parsedJws =>
    cases hs : parsedJws.Signatures with
    | nil => rw [hs] at h; simp [Except.isOk, Except.toBool] at h
    | cons sig rest =>
      cases rest with
      | cons s2 r2 => rw [hs] at h; simp [Except.isOk, Except.toBool] at h
      | nil =>
      rw [hs] at h; simp only [] at h
      cases hv : env.joseVerify parsedJws sig.Header.Key <;> rw [hv] at h <;>
        simp only [] at h
      case none => simp [Except.isOk, Except.toBool] at h
      case some ph =>
      obtain ⟨payload, header⟩ := ph
      simp only [] at h
      by_cases hn : header.Nonce.length = 0
      · rw [if_pos hn] at h; simp [Except.isOk, Except.toBool] at h
      · rw [if_neg hn] at h
        by_cases hmem : header.Nonce ∈ ns.outstanding
        · rw [valid_of_mem hmem] at h; simp only [] at h
          refine ⟨⟨body, parsedJws, sig, payload, header, rfl, hp, hs, hv,
            hn, hmem⟩, ?_⟩
          intro hrc body' parsedJws' sig' hb' hp' hs'
          have hbeq : body' = body := (Option.some.inj hb').symm
          rw [hbeq, hp] at hp'
          have hjeq : parsedJws' = parsedJws := (Option.some.inj hp').symm
          rw [hjeq, hs] at hs'
          have hseq : sig = sig' := (List.cons.inj hs').1
          rw [← hseq]
          cases hr : env.getRegistrationByKey sig.Header.Key with
          | error e =>
            rw [hr] at h; subst hrc
            simp [Except.isOk, Except.toBool] at h
          | ok reg => simp [Except.isOk, Except.toBool]
        · rw [valid_of_not_mem hmem] at h
          simp [Except.isOk, Except.toBool] at h
  · rintro ⟨⟨body, parsedJws, sig, payload, header, hb, hp, hs, hv, hn, hmem⟩,
      hreg⟩
    subst hb
    simp only [verifyPOST, hp, hs, hv, if_neg hn, valid_of_mem hmem]
    cases hr : env.getRegistrationByKey sig.Header.Key with
    | ok reg => simp [Except.isOk, Except.toBool]
    | error e =>
      cases rc with
      | true =>
        have := hreg rfl body parsedJws sig rfl hp hs
        rw [hr] at this; simp [Except.isOk, Except.toBool] at this
      | false => simp [Except.isOk, Except.toBool]

theorem verifyPOST_consumes_only_after_signature (env : Env)
    (ns : NonceService) (body? : Option String) (rc : Bool) :
    (verifyPOST env ns body? rc).2 ≠ ns → signaturePassed env body? := by
  intro h
  cases body? with
  | none => simp [verifyPOST] at h
  | some body =>
  simp only [verifyPOST] at h
  cases hp : env.parseSigned body <;> rw [hp] at h <;> simp only [] at h
  case none => exact absurd rfl h
  case some parsedJws =>
  cases hs : parsedJws.Signatures with
  | nil => rw [hs] at h; exact absurd rfl h
  | cons sig rest =>
    cases rest with
    | cons s2 r2 => rw [hs] at h; exact absurd rfl h
    | nil =>
    rw [hs] at h; simp only [] at h
    cases hv : env.joseVerify parsedJws sig.Header.Key <;> rw [hv] at h <;>
      simp only [] at h
    case none => exact absurd rfl h
    case some ph =>
      obtain ⟨payload, header⟩ := ph
      exact ⟨body, parsedJws, sig, payload, header, rfl, hp, hs, hv⟩

/-! ### C1 -/

/-- C1, counterexample: a request whose body parses as a one-signature
envelope, whose signature verifies against the embedded key, and whose
nonce is currently valid — all three claimed conditions hold — is still
rejected by `verifyPOST` when the account-required flag is set and the key
resolves to no stored account, so the claimed "iff" fails as stated. -/
theorem verifyPOST_three_conditions_not_sufficient :
    verifyConditions wEnvNoReg wNs (some "x") ∧
      (verifyPOST wEnvNoReg wNs (some "x") true).1.isOk = false :=
  ⟨⟨"x", wJws, wSig, "payload", wHeader, rfl, rfl, rfl, rfl, by decide,
    by decide⟩, by decide⟩

/-- C1 (amended): `verifyPOST` succeeds iff the body parses as an
envelope with exactly one signature, that signature verifies against the
key embedded in its protected header, the embedded nonce is present and
currently valid, and — when the account-required flag is set — the key
resolves to a stored account; moreover the nonce-service state changes
only in executions where the signature-verification step has passed. -/
theorem verifyPOST_success_characterisation (env : Env) (ns : NonceService)
    (body? : Option String) (rc : Bool) :
    ((verifyPOST env ns body? rc).1.isOk = true ↔
      verifyConditions env ns body? ∧
        (rc = true → accountResolves env body?)) ∧
    ((verifyPOST env ns body? rc).2 ≠ ns → signaturePassed env body?) :=
  ⟨verifyPOST_isOk_iff env ns body? rc,
   verifyPOST_consumes_only_after_signature env ns body? rc⟩

/-- C1, witness: the amended characterisation applied at a concrete
verifiable request with the account-required flag off. -/
theorem verifyPOST_success_characterisation_witness :
    (verifyPOST wEnvNoReg wNs (some "x") false).1.isOk = true :=
  ((verifyPOST_success_characterisation wEnvNoReg wNs (some "x") false).1).2
    ⟨⟨"x", wJws, wSig, "payload", wHeader, rfl, rfl, rfl, rfl, by decide,
      by decide⟩, fun h => nomatch h⟩

/-! ### C2: single use of nonces -/

theorem counter_le_applyOp (ns : NonceService) (op : NonceOp) :
    ns.counter ≤ (applyOp ns op).counter := by
  cases op with
  | issue => simp [applyOp, NonceService.nonce]
  | consume t =>
    simp only [applyOp, NonceService.valid]
    split <;> simp

theorem consumedToken_applyOp {t : String} {ns : NonceService}
    (h : consumedToken t ns) (op : NonceOp) : consumedToken t (applyOp ns op) := by
  obtain ⟨hout, k, hk, hmk⟩ := h
  cases op with
  | issue =>
    refine ⟨?_, k, ?_, hmk⟩
    · simp only [applyOp, NonceService.nonce]
      intro hmem
      rcases List.mem_cons.mp hmem with heq | hmem'
      · rw [hmk] at heq
        exact absurd (mkToken_injective heq) (by omega)
      · exact hout hmem'
    · simp only [applyOp, NonceService.nonce]; omega
  | consume t' =>
    refine ⟨?_, k, ?_, hmk⟩
    · simp only [applyOp, NonceService.valid]
      split
      · exact fun hmem => hout (List.mem_of_mem_erase hmem)
      · exact hout
    · calc k < ns.counter := hk
        _ ≤ (applyOp ns (.consume t')).counter := counter_le_applyOp ns _

theorem consumedToken_applyOps {t : String} {ns : NonceService}
    (h : consumedToken t ns) (ops : List NonceOp) :
    consumedToken t (applyOps ns ops) := by
  induction ops generalizing ns with
  | nil => exact h
  | cons op rest ih => exact ih (consumedToken_applyOp h op)

/-- C2: a freshly issued nonce is valid for exactly one successful
consumption: the first consume succeeds and removes it; after that, no
matter what sequence of issues and consumes the registry performs, a
consume of the same token fails and leaves the registry unchanged, and no
signed request carrying that nonce can ever pass `verifyPOST` again. -/
theorem nonce_single_use (ns ns₁ : NonceService) (t : String)
    (hwf : ns.wf) (hissue : ns.nonce = (t, ns₁)) :
    (ns₁.valid t).1 = true ∧
    t ∉ ((ns₁.valid t).2).outstanding ∧
    (∀ ops, (applyOps ((ns₁.valid t).2) ops).valid t =
      (false, applyOps ((ns₁.valid t).2) ops)) ∧
    (∀ ops env body? rc body parsedJws sig payload header,
      (verifyPOST env (applyOps ((ns₁.valid t).2) ops) body? rc).1.isOk = true →
      body? = some body → env.parseSigned body = some parsedJws →
      parsedJws.Signatures = [sig] →
      env.joseVerify parsedJws sig.Header.Key = some (payload, header) →
      header.Nonce ≠ t) := by
  have ht0 : mkToken ns.counter = t := by
    simpa [NonceService.nonce] using congrArg Prod.fst hissue
  have ht : t = mkToken ns.counter := ht0.symm
  have hns₁0 : (⟨mkToken ns.counter :: ns.outstanding, ns.counter + 1⟩ :
      NonceService) = ns₁ := by
    simpa [NonceService.nonce] using congrArg Prod.snd hissue
  have hns₁ : ns₁ = ⟨mkToken ns.counter :: ns.outstanding, ns.counter + 1⟩ :=
    hns₁0.symm
  have hnotmem : t ∉ ns.outstanding := by
    intro hmem
    obtain ⟨k, hk, hmk⟩ := hwf.2 t hmem
    rw [ht] at hmk
    exact absurd (mkToken_injective hmk) (by omega)
  have hmem₁ : t ∈ ns₁.outstanding := by
    rw [hns₁, ht]; exact List.mem_cons_self _ _
  have hvalid : ns₁.valid t =
      (true, ⟨ns₁.outstanding.erase t, ns₁.counter⟩) := valid_of_mem hmem₁
  have herase : ns₁.outstanding.erase t = ns.outstanding := by
    rw [hns₁, ht]
    exact List.erase_cons_head _ _
  have hcnt : ns₁.counter = ns.counter + 1 := by rw [hns₁]
  have hconsumed : consumedToken t ((ns₁.valid t).2) := by
    rw [hvalid]
    exact ⟨by simpa [herase] using hnotmem,
      ns.counter, by simp only [hcnt]; omega, ht⟩
  refine ⟨by rw [hvalid], ?_, ?_, ?_⟩
  · rw [hvalid]; simpa [herase] using hnotmem
  · intro ops
    exact valid_of_not_mem (consumedToken_applyOps hconsumed ops).1
  · intro ops env body? rc body parsedJws sig payload header hok hb hp hs hv
    obtain ⟨⟨body', parsedJws', sig', payload', header', hb', hp', hs', hv',
      _, hmem'⟩, _⟩ := (verifyPOST_isOk_iff env _ body? rc).mp hok
    rw [hb] at hb'
    have hbeq : body' = body := (Option.some.inj hb'.symm)
    rw [hbeq, hp] at hp'
    have hjeq : parsedJws' = parsedJws := Option.some.inj hp'.symm
    rw [hjeq, hs] at hs'
    have hseq : sig' = sig := (List.cons.inj hs'.symm).1
    rw [hjeq, hseq, hv] at hv'
    have hheq : header' = header := (Prod.mk.injEq _ _ _ _ ▸
      Option.some.inj hv'.symm).2
    intro habs
    rw [hheq, habs] at hmem'
    exact (consumedToken_applyOps hconsumed ops).1 hmem'

/-- C2, witness: the single-use theorem applied to the empty registry and
its first issued nonce, with the later-consume conjunct instantiated at
the empty operation sequence. -/
theorem nonce_single_use_witness :
    ((⟨["a"], 1⟩ : NonceService).valid "a").1 = true ∧
    ((applyOps (((⟨["a"], 1⟩ : NonceService)).valid "a").2 []).valid "a") =
      (false, applyOps (((⟨["a"], 1⟩ : NonceService)).valid "a").2 []) := by
  have h := nonce_single_use ⟨[], 0⟩ ⟨["a"], 1⟩ "a"
    ⟨List.nodup_nil, by simp⟩ (by decide)
  exact ⟨h.1, h.2.2.1 []⟩

/-! ### C4 and C6: the account-update handler -/

/-- C4: whenever the account-update handler hands an update to
`RA.UpdateRegistration`, the key field of that update equals the current
key of the signer's resolved account, regardless of the key (if any) in
the client-supplied payload. -/
theorem registration_update_keeps_key (e : RegEnv) (ns : NonceService)
    (path : List Char) (body? : Option String) (curr upd : Registration)
    (h : ((registrationHandler e ns path body?).1).raCall = some (curr, upd)) :
    upd.Key = curr.Key := by
  simp only [registrationHandler] at h
  cases hv : verifyPOST e.env ((ns.nonce).2) body? true with
  | mk res ns' =>
  rw [hv] at h
  cases res with
  | error err => simp at h
  | ok triple =>
  obtain ⟨payload, key, currReg⟩ := triple
  simp only [] at h
  cases hid : parseInt64 (parseIDFromPath path) with
  | none => rw [hid] at h; simp at h
  | some id =>
  rw [hid] at h; simp only [] at h
  by_cases hle : id ≤ 0
  · rw [if_pos hle] at h; simp at h
  · rw [if_neg hle] at h
    by_cases hne : id ≠ currReg.ID
    · rw [if_pos hne] at h; simp at h
    · rw [if_neg hne] at h
      cases hu : e.unmarshalReg payload with
      | none => rw [hu] at h; simp at h
      | some update =>
      rw [hu] at h; simp only [] at h
      by_cases hag : 0 < update.Agreement.length ∧
          update.Agreement ≠ e.subscriberAgreementURL
      · rw [if_pos hag] at h; simp at h
      · rw [if_neg hag] at h
        cases hra : e.raUpdateRegistration currReg
            { update with Key := currReg.Key } with
        | error err =>
          rw [hra] at h; simp only [] at h
          simp only [Option.some.injEq, Prod.mk.injEq] at h
          rw [← h.1, ← h.2]
        | ok updatedReg =>
          rw [hra] at h; simp only [] at h
          simp only [Option.some.injEq, Prod.mk.injEq] at h
          rw [← h.1, ← h.2]

/-- C4, witness: a concrete update whose payload carries key `⟨99⟩`
reaches the authority with the account's original key `⟨1⟩`. -/
theorem registration_update_keeps_key_witness :
    (⟨0, ⟨1⟩, "", ""⟩ : Registration).Key = wReg.Key :=
  registration_update_keeps_key wRegEnv wNs "/acme/reg/7".data (some "x")
    wReg ⟨0, ⟨1⟩, "", ""⟩ (by decide)

/-- C6, counterexample: a verified account-update request whose trailing
path segment is not an integer is rejected with status 400 (BadRequest),
not 403 (Forbidden) as the claim states; no authority call is made. -/
theorem registration_path_noninteger_is_bad_request :
    (registrationHandler wRegEnv wNs "/acme/reg/abc".data (some "x")).1 =
      ⟨400, none, none⟩ ∧ (400 : Nat) ≠ 403 := by decide

/-- C6 (amended): for every account-update request that passes
verification, a non-integer or non-positive trailing path segment is
rejected with BadRequest, and a positive integer segment differing from
the signer's resolved account id is rejected with Forbidden; in all three
cases the front end makes no authority call. -/
theorem registration_path_access_control (e : RegEnv) (ns : NonceService)
    (path : List Char) (body? : Option String) (payload : String)
    (key : JsonWebKey) (currReg : Registration) (ns' : NonceService)
    (hv : verifyPOST e.env ((ns.nonce).2) body? true =
      (.ok (payload, key, currReg), ns')) :
    (parseInt64 (parseIDFromPath path) = none →
      (registrationHandler e ns path body?).1 = ⟨400, none, none⟩) ∧
    (∀ id, parseInt64 (parseIDFromPath path) = some id → id ≤ 0 →
      (registrationHandler e ns path body?).1 = ⟨400, none, none⟩) ∧
    (∀ id, parseInt64 (parseIDFromPath path) = some id → 0 < id →
      id ≠ currReg.ID →
      (registrationHandler e ns path body?).1 = ⟨403, none, none⟩) := by
  refine ⟨?_, ?_, ?_⟩
  · intro hid
    simp only [registrationHandler, hv, hid]
  · intro id hid hle
    simp only [registrationHandler, hv, hid]
    rw [if_pos hle]
  · intro id hid hpos hne
    simp only [registrationHandler, hv, hid]
    rw [if_neg (by omega : ¬ id ≤ 0), if_pos hne]

/-- C6, witness: the amended access-control characterisation applied to a
concrete verified request addressed at account 9 while the signer owns
account 7. -/
theorem registration_path_access_control_witness :
    (registrationHandler wRegEnv wNs "/acme/reg/9".data (some "x")).1 =
      ⟨403, none, none⟩ :=
  (registration_path_access_control wRegEnv wNs "/acme/reg/9".data
    (some "x") "payload" wKey wReg _ rfl).2.2 9 (by decide) (by decide)
    (by decide)

/-! ### C5 and C7: the challenge handler -/

/-- C5: a verified challenge POST whose signer's account id differs from
the authorization's owning account id yields Forbidden with no authority
call, and the response is forwarded to the authority only when the two
account ids are equal. -/
theorem challenge_mismatch_forbidden (e : ChalEnv) (authz : Authorization)
    (ns : NonceService) (path rawQuery : List Char) (body? : Option String)
    (i : Nat) (payload : String) (key : JsonWebKey) (currReg : Registration)
    (ns' : NonceService)
    (hfind : findChallengeIndex authz path rawQuery = some i)
    (hv : verifyPOST e.env ((ns.nonce).2) body? true =
      (.ok (payload, key, currReg), ns')) :
    (currReg.ID ≠ authz.RegistrationID →
      (challengePOST e authz ns path rawQuery body?).1 = ⟨403, none, none⟩) ∧
    (((challengePOST e authz ns path rawQuery body?).1).raCall ≠ none →
      currReg.ID = authz.RegistrationID) := by
  constructor
  · intro hne
    simp only [challengePOST, hfind, hv]
    by_cases hagr : currReg.Agreement = ""
    · rw [if_pos hagr]
    · rw [if_neg hagr, if_pos hne]
  · intro hcall
    by_contra hne
    apply hcall
    simp only [challengePOST, hfind, hv]
    by_cases hagr : currReg.Agreement = ""
    · rw [if_pos hagr]
    · rw [if_neg hagr, if_pos hne]

/-- C7: every successful challenge POST passed the located challenge
index unchanged to `RA.UpdateAuthorization` and replied with the
challenge found at that same index of the authorization the authority
returned. -/
theorem challenge_index_stable (e : ChalEnv) (authz : Authorization)
    (ns : NonceService) (path rawQuery : List Char) (body? : Option String)
    (h202 : ((challengePOST e authz ns path rawQuery body?).1).status = 202) :
    ∃ i resp updatedAuthz,
      findChallengeIndex authz path rawQuery = some i ∧
      ((challengePOST e authz ns path rawQuery body?).1).raCall =
        some (authz, i, resp) ∧
      e.raUpdateAuthorization authz i resp = .ok updatedAuthz ∧
      ((challengePOST e authz ns path rawQuery body?).1).body =
        updatedAuthz.Challenges[i]? := by
  simp only [challengePOST] at h202
  split at h202
  · simp at h202
  rename_i i hfind
  split at h202
  · rename_i err ns' hv
    simp only [] at h202
    split at h202 <;> simp at h202
  rename_i payload key currReg ns' hv
  split at h202
  · simp at h202
  rename_i hagr
  split at h202
  · simp at h202
  rename_i hne
  split at h202
  · simp at h202
  rename_i challengeResponse hu
  split at h202
  · rename_i err hra
    simp only [] at h202
    cases err <;> simp [statusCodeFromError] at h202
  rename_i updatedAuthz hra
  split at h202
  · simp at h202
  rename_i challenge hc
  refine ⟨i, challengeResponse, updatedAuthz, hfind, ?_, hra, ?_⟩ <;>
    simp only [challengePOST, hfind, hv, if_neg hagr, if_neg hne, hu, hra, hc]

/-- C5, witness: account 7's key answering a challenge of an
authorization owned by account 8 is rejected with 403 and no authority
call. -/
theorem challenge_mismatch_forbidden_witness :
    (challengePOST wChalEnv wAuthzOther wNs "/acme/authz/z".data "c0".data
      (some "x")).1 = ⟨403, none, none⟩ :=
  (challenge_mismatch_forbidden wChalEnv wAuthzOther wNs "/acme/authz/z".data
    "c0".data (some "x") 0 "payload" wKey wReg _ (by decide) rfl).1 (by decide)

/-- C7, witness: the index-stability theorem applied to a concrete
successful challenge POST. -/
theorem challenge_index_stable_witness :
    ∃ i resp updatedAuthz,
      findChallengeIndex wAuthz "/acme/authz/z".data "c0".data = some i ∧
      ((challengePOST wChalEnv wAuthz wNs "/acme/authz/z".data "c0".data
        (some "x")).1).raCall = some (wAuthz, i, resp) ∧
      wChalEnv.raUpdateAuthorization wAuthz i resp = .ok updatedAuthz ∧
      ((challengePOST wChalEnv wAuthz wNs "/acme/authz/z".data "c0".data
        (some "x")).1).body = updatedAuthz.Challenges[i]? :=
  challenge_index_stable wChalEnv wAuthz wNs "/acme/authz/z".data "c0".data
    (some "x") (by decide)

/-! ### C3 and C10: the revocation handler -/

/-- Shared characterisation of the revocation handler's authorization
branch: once the request verified and the payload matched a stored,
parseable, not-yet-revoked certificate, the authority is called iff the
request key matches the certificate's key or the signer's account id
matches the certificate's owning account id, and otherwise the handler
answers 403 without calling the authority. -/
theorem revoke_raCalled_characterisation (e : RevokeEnv) (ns : NonceService)
    (body? : Option String) (payload : String) (requestKey : JsonWebKey)
    (registration : Registration) (ns' : NonceService) (certDER : List Nat)
    (providedCert parsedCertificate : ParsedCert) (cert : StoredCert)
    (certStatus : CertStatus)
    (hv : verifyPOST e.env ((ns.nonce).2) body? false =
      (.ok (payload, requestKey, registration), ns'))
    (hu : e.unmarshalRevoke payload = some certDER)
    (hpc : e.parseCert certDER = some providedCert)
    (hget : e.getCertificate (e.serialToString providedCert.SerialNumber) =
      .ok cert)
    (hder : cert.DER = certDER)
    (hpc2 : e.parseCert cert.DER = some parsedCertificate)
    (hst : e.getCertificateStatus
      (e.serialToString providedCert.SerialNumber) = .ok certStatus)
    (hnr : certStatus.Status ≠ "revoked") :
    (((revokeCertificateHandler e ns body?).1).raCalled = true ↔
      (e.keyDigestEquals requestKey parsedCertificate.PublicKey = true ∨
        registration.ID = cert.RegistrationID)) ∧
    (¬ (e.keyDigestEquals requestKey parsedCertificate.PublicKey = true ∨
        registration.ID = cert.RegistrationID) →
      (revokeCertificateHandler e ns body?).1 = ⟨403, false⟩) := by
  have hone : ¬ cert.DER ≠ certDER := by simp [hder]
  by_cases hauth : e.keyDigestEquals requestKey parsedCertificate.PublicKey =
      true ∨ registration.ID = cert.RegistrationID
  · constructor
    · simp only [revokeCertificateHandler, hv, hu, hpc, hget, if_neg hone,
        hpc2, hst, if_neg hnr, if_neg (not_not_intro hauth)]
      cases hra : e.raRevoke parsedCertificate with
      | error err => simp [hauth]
      | ok u => simp [hauth]
    · intro habs; exact absurd hauth habs
  · constructor
    · simp only [revokeCertificateHandler, hv, hu, hpc, hget, if_neg hone,
        hpc2, hst, if_neg hnr, if_pos hauth]
      simp [hauth]
    · intro _
      simp only [revokeCertificateHandler, hv, hu, hpc, hget, if_neg hone,
        hpc2, hst, if_neg hnr, if_pos hauth]

/-- When account lookup fails and the account-required flag is off,
`verifyPOST` returns the zero-valued registration. -/
theorem verifyPOST_empty_reg (env : Env) (ns : NonceService)
    (body? : Option String) (payload : String) (key : JsonWebKey)
    (reg : Registration) (ns' : NonceService)
    (hv : verifyPOST env ns body? false = (.ok (payload, key, reg), ns'))
    (hlook : ∀ r, env.getRegistrationByKey key ≠ .ok r) :
    reg = Registration.empty := by
  cases body? with
  | none => simp [verifyPOST] at hv
  | some body =>
  simp only [verifyPOST] at hv
  cases hp : env.parseSigned body <;> rw [hp] at hv <;> simp only [] at hv
  case none => simp at hv
  case some parsedJws =>
  cases hs : parsedJws.Signatures with
  | nil => rw [hs] at hv; simp at hv
  | cons sig rest =>
    cases rest with
    | cons s2 r2 => rw [hs] at hv; simp at hv
    | nil =>
    rw [hs] at hv; simp only [] at hv
    cases hjv : env.joseVerify parsedJws sig.Header.Key <;> rw [hjv] at hv <;>
      simp only [] at hv
    case none => simp at hv
    case some ph =>
    obtain ⟨payload', header⟩ := ph
    simp only [] at hv
    by_cases hn : header.Nonce.length = 0
    · rw [if_pos hn] at hv; simp at hv
    · rw [if_neg hn] at hv
      by_cases hmem : header.Nonce ∈ ns.outstanding
      · rw [valid_of_mem hmem] at hv; simp only [] at hv
        cases hr : env.getRegistrationByKey sig.Header.Key with
        | ok reg' =>
          rw [hr] at hv
          simp only [Prod.mk.injEq, Except.ok.injEq] at hv
          obtain ⟨⟨_, hkey, _⟩, _⟩ := hv
          rw [hkey] at hr
          exact absurd hr (hlook reg')
        | error se =>
          rw [hr] at hv
          simp only [Prod.mk.injEq, Except.ok.injEq] at hv
          rw [if_neg (by decide : ¬ ((false : Bool) = true))] at hv
          simp only [Prod.mk.injEq, Except.ok.injEq] at hv
          exact hv.1.2.2.symm
      · rw [valid_of_not_mem hmem] at hv; simp at hv

/-- C3: a verified revocation request matching a stored, not-yet-revoked
certificate is delegated to the authority iff the request key matches the
certificate's embedded key or the signer's account id matches the
certificate's owning account id; any other verified requester gets 403
and no revocation call is made. -/
theorem revocation_requires_key_or_account (e : RevokeEnv)
    (ns : NonceService) (body? : Option String) (payload : String)
    (requestKey : JsonWebKey) (registration : Registration)
    (ns' : NonceService) (certDER : List Nat)
    (providedCert parsedCertificate : ParsedCert) (cert : StoredCert)
    (certStatus : CertStatus)
    (hv : verifyPOST e.env ((ns.nonce).2) body? false =
      (.ok (payload, requestKey, registration), ns'))
    (hu : e.unmarshalRevoke payload = some certDER)
    (hpc : e.parseCert certDER = some providedCert)
    (hget : e.getCertificate (e.serialToString providedCert.SerialNumber) =
      .ok cert)
    (hder : cert.DER = certDER)
    (hpc2 : e.parseCert cert.DER = some parsedCertificate)
    (hst : e.getCertificateStatus
      (e.serialToString providedCert.SerialNumber) = .ok certStatus)
    (hnr : certStatus.Status ≠ "revoked") :
    (((revokeCertificateHandler e ns body?).1).raCalled = true ↔
      (e.keyDigestEquals requestKey parsedCertificate.PublicKey = true ∨
        registration.ID = cert.RegistrationID)) ∧
    (¬ (e.keyDigestEquals requestKey parsedCertificate.PublicKey = true ∨
        registration.ID = cert.RegistrationID) →
      (revokeCertificateHandler e ns body?).1 = ⟨403, false⟩) :=
  revoke_raCalled_characterisation e ns body? payload requestKey registration
    ns' certDER providedCert parsedCertificate cert certStatus hv hu hpc hget
    hder hpc2 hst hnr

/-- C3, witness: the characterisation applied at a concrete request
signed by the certificate's own key, which is delegated. -/
theorem revocation_requires_key_or_account_witness :
    ((revokeCertificateHandler wRevokeEnv wNs (some "x")).1).raCalled =
      true :=
  (revocation_requires_key_or_account wRevokeEnv wNs (some "x") "payload"
    wKey wReg _ [1, 2, 3] wParsed wParsed wStoredCert ⟨"good"⟩ rfl rfl rfl
    rfl rfl rfl rfl (by decide)).1.mpr (Or.inl (by decide))

/-- C10: a revocation request whose signing key maps to no stored account
is resolved by `verifyPOST` (account-required flag off) to the zero-valued
account with id 0, and such an account-less signer's request is delegated
to the authority iff the signing key matches the certificate's embedded
key or the stored certificate's owning account id equals 0. -/
theorem revocation_unregistered_signer (e : RevokeEnv) (ns : NonceService)
    (body? : Option String) (payload : String) (requestKey : JsonWebKey)
    (registration : Registration) (ns' : NonceService) (se : SqlErr)
    (certDER : List Nat) (providedCert parsedCertificate : ParsedCert)
    (cert : StoredCert) (certStatus : CertStatus)
    (hv : verifyPOST e.env ((ns.nonce).2) body? false =
      (.ok (payload, requestKey, registration), ns'))
    (hlook : e.env.getRegistrationByKey requestKey = .error se)
    (hu : e.unmarshalRevoke payload = some certDER)
    (hpc : e.parseCert certDER = some providedCert)
    (hget : e.getCertificate (e.serialToString providedCert.SerialNumber) =
      .ok cert)
    (hder : cert.DER = certDER)
    (hpc2 : e.parseCert cert.DER = some parsedCertificate)
    (hst : e.getCertificateStatus
      (e.serialToString providedCert.SerialNumber) = .ok certStatus)
    (hnr : certStatus.Status ≠ "revoked") :
    registration.ID = 0 ∧
    (((revokeCertificateHandler e ns body?).1).raCalled = true ↔
      (e.keyDigestEquals requestKey parsedCertificate.PublicKey = true ∨
        cert.RegistrationID = 0)) := by
  have hempty : registration = Registration.empty :=
    verifyPOST_empty_reg e.env ((ns.nonce).2) body? payload requestKey
      registration ns' hv (fun r hr => by rw [hlook] at hr; exact nomatch hr)
  have hid : registration.ID = 0 := by rw [hempty]; rfl
  refine ⟨hid, ?_⟩
  have hc := (revoke_raCalled_characterisation e ns body? payload requestKey
    registration ns' certDER providedCert parsedCertificate cert certStatus
    hv hu hpc hget hder hpc2 hst hnr).1
  rw [hc, hid]
  constructor
  · rintro (hk | hz)
    · exact Or.inl hk
    · exact Or.inr hz.symm
  · rintro (hk | hz)
    · exact Or.inl hk
    · exact Or.inr hz.symm

/-- C10, witness: the account-less characterisation applied at a concrete
request; the signer resolves to account id 0 and the request is delegated
because the certificate's owning account id is 0. -/
theorem revocation_unregistered_signer_witness :
    Registration.empty.ID = 0 ∧
    ((revokeCertificateHandler wRevokeEnvNoReg wNs (some "x")).1).raCalled =
      true := by
  have h := revocation_unregistered_signer wRevokeEnvNoReg wNs (some "x")
    "payload" wKey Registration.empty _ SqlErr.noRows [1, 2, 3] wParsed
    wParsed wStoredCert0 ⟨"good"⟩ rfl rfl rfl rfl rfl rfl rfl rfl
    (by decide)
  exact ⟨h.1, h.2.mpr (Or.inr rfl)⟩

/-! ### C8: the problem formatter -/

/-- C8, counterexample: the not-implemented status (501), reachable via
`statusCodeFromError` on a `NotSupportedError`, falls outside every case
of `sendError`'s switch, so the problem document carries no type tag at
all rather than the claimed server-internal type. -/
theorem sendError_unclassified_has_no_type :
    statusCodeFromError CoreError.notSupported = 501 ∧
    (sendError "oops" 501).type = none ∧
    (sendError "oops" 501).type ≠ some ProblemType.serverInternal := by
  refine ⟨rfl, rfl, ?_⟩
  intro h
  exact nomatch h

/-- C8 (amended): the problem type is total in the status code:
bad-request-family statuses (400, 404, 405, 409) map to "malformed", 403
maps to "unauthorized", 500 — including the success-path serialization
failures, which are sent with status 500 — maps to "server-internal", and
statuses outside these families (501 from NotSupportedError, 412 from
SignatureValidationError) yield a problem document with no type tag; the
detail string is always carried through. -/
theorem sendError_problem_type_by_family (details : String) :
    (∀ e : CoreError,
      (sendError details (statusCodeFromError e)).type =
        match e with
        | .malformedRequest => some .malformed
        | .syntaxError => some .malformed
        | .notFound => some .malformed
        | .unauthorized => some .unauthorized
        | .internalServer => some .serverInternal
        | .other => some .serverInternal
        | .notSupported => none
        | .signatureValidation => none) ∧
    (sendError details 405).type = some ProblemType.malformed ∧
    (sendError details 409).type = some ProblemType.malformed ∧
    (sendError details 500).type = some ProblemType.serverInternal ∧
    (∀ e : CoreError,
      (sendError details (statusCodeFromError e)).detail = details) := by
  refine ⟨fun e => ?_, rfl, rfl, rfl, fun e => rfl⟩
  cases e <;> rfl

/-! ### C9: short serials and the certificate read handler -/

theorem isLowerHexDigit_hexChar (n : Nat) (hn : n < 16) :
    isLowerHexDigit (hexChar n) = true := by
  interval_cases n <;> decide

theorem natToHexAux_length (k : Nat) : ∀ fuel n acc, n < 16 ^ k →
    (natToHexAux fuel n acc).length ≤ k + acc.length := by
  induction k with
  | zero =>
    intro fuel n acc hn
    have h1 : (16 : Nat) ^ 0 = 1 := pow_zero 16
    have : n = 0 := by omega
    subst this
    cases fuel <;> simp [natToHexAux]
  | succ k ih =>
    intro fuel n acc hn
    cases n with
    | zero => cases fuel <;> simp only [natToHexAux] <;> omega
    | succ m =>
      cases fuel with
      | zero => simp only [natToHexAux]; omega
      | succ fuel =>
        rw [natToHexAux]
        have hdiv : (m + 1) / 16 < 16 ^ k := by
          apply Nat.div_lt_of_lt_mul
          have : (16 : Nat) ^ (k + 1) = 16 ^ k * 16 := pow_succ 16 k
          omega
        have := ih fuel ((m + 1) / 16) (hexChar ((m + 1) % 16) :: acc) hdiv
        simp only [List.length_cons] at this
        omega

theorem natToHexAux_mem (k : Nat) : ∀ fuel n acc c, n < 16 ^ k →
    c ∈ natToHexAux fuel n acc → c ∈ acc ∨ isLowerHexDigit c = true := by
  induction k with
  | zero =>
    intro fuel n acc c hn hc
    have h1 : (16 : Nat) ^ 0 = 1 := pow_zero 16
    have : n = 0 := by omega
    subst this
    cases fuel <;> simp only [natToHexAux] at hc <;> exact Or.inl hc
  | succ k ih =>
    intro fuel n acc c hn hc
    cases n with
    | zero =>
      cases fuel <;> simp only [natToHexAux] at hc <;> exact Or.inl hc
    | succ m =>
      cases fuel with
      | zero =>
        simp only [natToHexAux] at hc
        exact Or.inl hc
      | succ fuel =>
        rw [natToHexAux] at hc
        have hdiv : (m + 1) / 16 < 16 ^ k := by
          apply Nat.div_lt_of_lt_mul
          have : (16 : Nat) ^ (k + 1) = 16 ^ k * 16 := pow_succ 16 k
          omega
        rcases ih fuel ((m + 1) / 16) (hexChar ((m + 1) % 16) :: acc) c hdiv
          hc with h | h
        · rcases List.mem_cons.mp h with heq | hmem
          · exact Or.inr
              (heq ▸ isLowerHexDigit_hexChar _ (Nat.mod_lt _ (by omega)))
          · exact Or.inl hmem
        · exact Or.inr h

theorem natToHex_length_le (n : Nat) (h : n < 2 ^ 64) :
    (natToHex n).length ≤ 16 := by
  by_cases h0 : n = 0
  · subst h0; simp [natToHex]
  · simp only [natToHex, if_neg h0]
    have h16 : n < 16 ^ 16 := by
      have : (16 : Nat) ^ 16 = 2 ^ 64 := by norm_num
      omega
    simpa using natToHexAux_length 16 (n + 1) n [] h16

theorem natToHex_all_hexdigits (n : Nat) :
    ∀ c ∈ natToHex n, isLowerHexDigit c = true := by
  intro c hc
  by_cases h0 : n = 0
  · subst h0
    simp [natToHex] at hc
    subst hc; decide
  · simp only [natToHex, if_neg h0] at hc
    rcases natToHexAux_mem n (n + 1) n [] c (Nat.lt_pow_self (by norm_num) n)
      hc with h | h
    · simp at h
    · exact h

theorem shortSerial_length (S : Nat) (hS : S < 2 ^ 128) :
    (shortSerial S).length = 16 := by
  have hdiv : S / 2 ^ 64 < 2 ^ 64 := by
    apply Nat.div_lt_of_lt_mul
    have : (2 : Nat) ^ 64 * 2 ^ 64 = 2 ^ 128 := by norm_num
    omega
  have hlen := natToHex_length_le _ hdiv
  simp only [shortSerial, List.length_append, List.length_replicate]
  omega

theorem shortSerial_allHex (S : Nat) (hS : S < 2 ^ 128) :
    allHex (shortSerial S) = true := by
  have hlen := shortSerial_length S hS
  have hne : shortSerial S ≠ [] := by
    intro h; rw [h] at hlen; simp at hlen
  have hall : (shortSerial S).all isLowerHexDigit = true := by
    apply List.all_eq_true.mpr
    intro c hc
    simp only [shortSerial, List.mem_append] at hc
    rcases hc with h | h
    · rw [List.eq_of_mem_replicate h]; decide
    · exact natToHex_all_hexdigits _ c h
  simp [allHex, hne, hall]

/-- C9: the short identifier of a certificate is a deterministic function
of the serial's value with its low 64 bits dropped, rendered as exactly 16
lowercase hex digits; a GET for the short identifier derived from serial
`S` returns the unique stored certificate matching it, and yields the
distinct Conflict outcome (never NotFound or an arbitrary pick) when more
than one stored certificate shares it. -/
theorem certificate_short_serial_round_trip (store : List StoredCert)
    (S : Nat) (hS : S < 2 ^ 128) :
    (shortSerial S).length = 16 ∧
    allHex (shortSerial S) = true ∧
    (∀ T, S / 2 ^ 64 = T / 2 ^ 64 → shortSerial S = shortSerial T) ∧
    (∀ cert,
      store.filter (fun c => shortSerial c.Serial = shortSerial S) = [cert] →
      certificateGet store (certPath ++ shortSerial S) = .ok cert) ∧
    (∀ c₁ c₂ rest,
      store.filter (fun c => shortSerial c.Serial = shortSerial S) =
        c₁ :: c₂ :: rest →
      certificateGet store (certPath ++ shortSerial S) = .conflict) := by
  have hlen := shortSerial_length S hS
  have hhex := shortSerial_allHex S hS
  have hpre : certPath.isPrefixOf (certPath ++ shortSerial S) = true :=
    List.isPrefixOf_iff_prefix.mpr (List.prefix_append _ _)
  have hdrop : (certPath ++ shortSerial S).drop certPath.length =
      shortSerial S := List.drop_left _ _
  refine ⟨hlen, hhex, ?_, ?_, ?_⟩
  · intro T h
    simp only [shortSerial, h]
  · intro cert hfilter
    simp only [certificateGet, hdrop]
    rw [if_neg (not_not_intro hpre), if_neg (by simp [hlen, hhex])]
    simp only [getCertificateByShortSerial, hfilter]
  · intro c₁ c₂ rest hfilter
    simp only [certificateGet, hdrop]
    rw [if_neg (not_not_intro hpre), if_neg (by simp [hlen, hhex])]
    simp only [getCertificateByShortSerial, hfilter]

/-- C9, witness: the round trip applied to a one-certificate store at
serial `2^64` (short identifier `0000000000000001`). -/
theorem certificate_short_serial_round_trip_witness :
    certificateGet [⟨2 ^ 64, [1], 5⟩] (certPath ++ shortSerial (2 ^ 64)) =
      .ok ⟨2 ^ 64, [1], 5⟩ :=
  (certificate_short_serial_round_trip [⟨2 ^ 64, [1], 5⟩] (2 ^ 64)
    (by norm_num)).2.2.2.1 ⟨2 ^ 64, [1], 5⟩ (by decide)

end Wfe
